import Mathlib

/-!
Verification of the `cell_row_span` span-resolution pass.

A shallow embedding of `cell_row_span.py` (the `cell_row_span` Markdown
extension): the Table-Source Recorder (`CellRowSpanBlockProcessor.run`) and
the Span Resolver (`CellRowSpanTreeProcessor`), together with theorems about
the embedded code.

Modelling conventions:
* `td`/`tr` elements become `Cell` values and `List Cell` rows; a cell's
  ElementTree attribute dictionary is an association list, and Python object
  identity (used by `td_remove` bookkeeping and by `td in tr` / `tr.remove`)
  is modelled by a numeric `id` field, assumed distinct per row where identity
  matters.
* Fallible Python operations (list indexing, `int()`, attribute lookup on
  `self`, regex calls on `None`) return `Except PyErr`.
* The regular expressions of the source are translated to executable
  character-list functions, keeping Python semantics: `$` also matches just
  before one trailing newline, `\s` is taken as the ASCII whitespace class
  (the Unicode space characters matched by Python's `\s` are not modelled;
  none of the theorems below depends on them).
-/

set_option maxHeartbeats 1000000

namespace CellRowSpan

/-- Python exceptions that the translated code can raise.  `IndexError`
raised by `_update_colspan_attrib` is kept separate from a plain list
`IndexError` because it carries the diagnostic payload that claim C6 is
about: the table number, the 1-based row number, and the per-cell dump of
the row. -/
inductive PyErr where
  | typeError (msg : String)
  | attributeError (missing : String)
  | valueError (msg : String)
  | listIndexError
  | mergeIndexError (tableIdx rowIdx : Nat) (rowDump : String)
deriving DecidableEq

/-- A `td` element of the table tree: its identity (standing in for Python
object identity), its text content (`None`-able, hence `Option`), and its
attribute dictionary. -/
structure Cell where
  id : Nat
  text : Option String
  attrib : List (String × String)
deriving DecidableEq

/-- Lookup in an attribute dictionary (`td.get(key)` / `key in td.keys()`). -/
def attribGet : List (String × String) → String → Option String
  | [], _ => none
  | (k', v) :: rest, k => if k' = k then some v else attribGet rest k

/-- Update of an attribute dictionary (`td.set(key, value)`): replace the
binding if present, append otherwise. -/
def attribSet : List (String × String) → String → String → List (String × String)
  | [], k, v => [(k, v)]
  | (k', v') :: rest, k, v =>
    if k' = k then (k, v) :: rest else (k', v') :: attribSet rest k v

/-- Replace the element at an index by applying a function to it (in-place
mutation of one child of an ElementTree node). Out-of-range indices leave
the list unchanged; the embedded code only uses in-range indices. -/
def modifyAt {α : Type} : List α → Nat → (α → α) → List α
  | [], _, _ => []
  | a :: l, 0, f => f a :: l
  | a :: l, n + 1, f => a :: modifyAt l n f

/-- Indexing `tbody[r][c]` with Python's `IndexError` on an out-of-range index. -/
def getCell (tbody : List (List Cell)) (r c : Nat) : Except PyErr Cell :=
  match tbody.get? r with
  | none => .error .listIndexError
  | some row =>
    match row.get? c with
    | none => .error .listIndexError
    | some td => .ok td

/-- Indexing `l[i]` on a list of strings, with Python's `IndexError`. -/
def listGet (l : List String) (i : Nat) : Except PyErr String :=
  match l.get? i with
  | none => .error .listIndexError
  | some s => .ok s

/-- Passing `td.text` to a regex call: `re.match`/`re.search` raise
`TypeError` when handed `None` instead of a string. -/
def asString : Option String → Except PyErr String
  | some s => .ok s
  | none => .error (.typeError "expected string or bytes-like object")

/-- The ASCII characters of Python's regex class `\s`. -/
def isPySpace (c : Char) : Bool :=
  c = ' ' || c = '\t' || c = '\n' || c = '\r' || c = '\x0b' || c = '\x0c'

/-- Test `RE_empty_cell.match(text)`, i.e. `re.match(r'\s*(~~)?\s*$', text)`:
the text is whitespace, optionally with one `~~` sentinel inside. -/
def emptyCellMatch (s : String) : Bool :=
  match s.toList.dropWhile isPySpace with
  | '~' :: '~' :: rest => rest.all isPySpace
  | l => l.isEmpty

/-- Membership in the regex character class `[_^= ]`. -/
def isMarkerClassChar (c : Char) : Bool :=
  c = '_' || c = '^' || c = '=' || c = ' '

/-- Matcher for the tail `[_^= ]*_` of `RE_row_span_marker`: a run of
characters from the class `[_^= ]` ended by a final underscore. -/
def markerTail : List Char → Bool
  | [] => false
  | [c] => c = '_'
  | c :: rest => isMarkerClassChar c && markerTail rest

/-- Full match of `_[_^= ]*_` against a character list. -/
def markerCore : List Char → Bool
  | [] => false
  | c :: rest => c = '_' && markerTail rest

/-- Test `RE_row_span_marker.match(text)`, i.e. `re.match(r'^_[_^= ]*_$', text)`.
Python's `$` matches at the end of the string or just before one newline
that ends the string, hence the second disjunct. -/
def markerMatch (s : String) : Bool :=
  markerCore s.toList ||
    (match s.toList.getLast? with
     | some c => c = '\n' && markerCore s.toList.dropLast
     | none => false)

/-- Substitution `RE_remove_lead_pipe.sub('', text)`: drop a leading run of spaces
followed by one `|`, when present (`^ *\|` matches at most once). -/
def removeLeadPipe (s : String) : String :=
  match s.toList.dropWhile (fun c => c = ' ') with
  | '|' :: rest => String.mk rest
  | _ => s

/-- Split `text.split(sep)` for a one-character separator, on character lists. -/
def pySplitChars (sep : Char) : List Char → List (List Char)
  | [] => [[]]
  | c :: rest =>
    if c = sep then [] :: pySplitChars sep rest
    else
      match pySplitChars sep rest with
      | [] => [[c]]
      | h :: t => (c :: h) :: t

/-- Search `RE_adjacent_bars.search(line)`, i.e. `re.search(r'\|(~~)?\|', line)`:
the line contains `||` or `|~~|` somewhere. -/
def hasAdjacentBars : List Char → Bool
  | '|' :: '|' :: _ => true
  | '|' :: '~' :: '~' :: '|' :: _ => true
  | _ :: rest => hasAdjacentBars rest
  | [] => false

/-- The test `len(c) == 0 or c == '~~'` applied to one piece of the split
row text. -/
def pieceIsEmptyMarker (p : List Char) : Bool :=
  p.isEmpty || p == ['~', '~']

/-- Python `==` between an `int` and a `str`: the two types never compare
equal, so the result is always `False`. -/
def pyIntEqStr (_n : Nat) (_s : String) : Bool := false

/-- The membership test `n in rows` from `run`, where `n` is an integer and
`rows` is the list of raw source lines (strings). -/
def intInStrList (n : Nat) (rows : List String) : Bool :=
  rows.any (fun s => pyIntEqStr n s)

/-- Decimal digit value of a character, when it is one of `0`-`9`. -/
def decDigit? (c : Char) : Option Nat :=
  if 48 ≤ c.toNat ∧ c.toNat ≤ 57 then some (c.toNat - 48) else none

/-- Accumulating decimal parser over the characters of a string. -/
def parseDecCore : List Char → Nat → Option Nat
  | [], acc => some acc
  | c :: rest, acc =>
    match decDigit? c with
    | none => none
    | some d => parseDecCore rest (acc * 10 + d)

/-- Conversion `int(s)` applied to an attribute value: parse a non-empty all-digit
string, raising `ValueError` otherwise.  (Python's `int` also accepts
surrounding whitespace and a sign; the attribute values this code stores
and re-reads are plain decimal numerals, on which this model agrees with
Python.) -/
def pyInt (s : String) : Except PyErr Nat :=
  match parseDecCore s.toList 0 with
  | some n =>
    if s.toList.isEmpty then .error (.valueError "invalid literal for int() with base 10")
    else .ok n
  | none => .error (.valueError "invalid literal for int() with base 10")

/-- One line `"  Cell %i: %s\n" % (i+1, x if x else 'Empty')` of the
diagnostic row dump; both `None` and `''` are falsy, hence print `Empty`. -/
def cellDumpLine (i : Nat) (t : Option String) : String :=
  "  Cell " ++ toString (i + 1) ++ ": " ++
    (match t with
     | some s => if s = "" then "Empty" else s
     | none => "Empty") ++ "\n"

/-- The `row_content` accumulated by `_update_colspan_attrib` before raising
its `IndexError`: one dump line per cell of the row. -/
def cellDump (tr : List Cell) : String :=
  String.join (tr.enum.map (fun p => cellDumpLine p.1 p.2.text))

/-- The attribute slot `self.table_count` of the tree processor.  No
statement in the source ever assigns it, so the slot is empty and reading
it raises `AttributeError`. -/
def table_count : Option Nat := none

/-- The vertical-alignment computation at the top of
`_update_rowspan_attrib`: `^` present means top, `=` present means bottom,
both present raises — except that formatting the `ValueError` message reads
`self.table_count`, which is never assigned, so the attribute lookup itself
raises `AttributeError` first. -/
def computeValign (marker : String) (trIndex tdIndex : Nat) : Except PyErr String :=
  let hasTop := marker.toList.contains '^'
  let hasBottom := marker.toList.contains '='
  if hasBottom then
    if hasTop then
      match table_count with
      | none => .error (.attributeError "table_count")
      | some t =>
        .error (.valueError
          ("Cannot use both ^ (top) and = (bottom) codes in a row span marker\n" ++
           "Check row " ++ toString (trIndex + 1) ++ ", column " ++
           toString (tdIndex + 1) ++ " in table " ++ toString t ++
           " in your document"))
    else .ok "bottom"
  else if hasTop then .ok "top" else .ok "middle"

/-- Applying `td.set(key, value)` to a cell. -/
def setCellAttr (k v : String) (cell : Cell) : Cell :=
  { cell with attrib := attribSet cell.attrib k v }

/-- One iteration's queueing test of the upward scan in
`_update_rowspan_attrib`: `row_num == tr_index or RE_empty_cell.match(td.text)`,
with Python's short-circuit `or` (the marker row's text is not examined). -/
def scanStep (trIndex r : Nat) (td : Cell) : Except PyErr Bool :=
  if r = trIndex then .ok true
  else
    match asString td.text with
    | .error e => .error e
    | .ok s => .ok (emptyCellMatch s)

/-- The loop `for row_num in reversed(range(tr_index+1))` of
`_update_rowspan_attrib`, started at `r = trIndex`: fetch the cell at the
fixed column, queue it for removal if this is the marker row or the cell is
blank and continue downward, otherwise break.  Returns the final value of
`row_num` (the anchor row) and the queued `(row, cell-id)` pairs in
iteration order. -/
def scanUp (trIndex tdIndex : Nat) (tbody : List (List Cell)) :
    Nat → Except PyErr (Nat × List (Nat × Nat))
  | 0 =>
    match getCell tbody 0 tdIndex with
    | .error e => .error e
    | .ok td =>
      match scanStep trIndex 0 td with
      | .error e => .error e
      | .ok b => if b then .ok (0, [(0, td.id)]) else .ok (0, [])
  | r' + 1 =>
    match getCell tbody (r' + 1) tdIndex with
    | .error e => .error e
    | .ok td =>
      match scanStep trIndex (r' + 1) td with
      | .error e => .error e
      | .ok b =>
        if b then
          match scanUp trIndex tdIndex tbody r' with
          | .error e => .error e
          | .ok (a, qs) => .ok (a, (r' + 1, td.id) :: qs)
        else .ok (r' + 1, [])

/-- Method `_update_rowspan_attrib(tbody, tr_index, td_index, td_remove)`: compute
the alignment (for its error effect only — the result is discarded, exactly
as in the source, which never writes it anywhere), scan upward queueing
cells, then set `rowspan` on the cell at the final `row_num` (`row_num >= 0`
always holds, so the `else` arm of the conditional expression in the source
is dead).  Returns the updated tree and the extended removal queue. -/
def updateRowspanAttrib (tbody : List (List Cell)) (trIndex tdIndex : Nat)
    (q : List (Nat × Nat)) :
    Except PyErr (List (List Cell) × List (Nat × Nat)) :=
  match getCell tbody trIndex tdIndex with
  | .error e => .error e
  | .ok markerCell =>
    match asString markerCell.text with
    | .error e => .error e
    | .ok marker =>
      match computeValign marker trIndex tdIndex with
      | .error e => .error e
      | .ok _vAlign =>
        match scanUp trIndex tdIndex tbody trIndex with
        | .error e => .error e
        | .ok (anchor, qs) =>
          match getCell tbody anchor tdIndex with
          | .error e => .error e
          | .ok _anchorCell =>
            .ok (modifyAt tbody anchor
                   (fun row => modifyAt row tdIndex
                     (setCellAttr "rowspan" (toString (trIndex - anchor + 1)))),
                 q ++ qs)

/-- The piece loop of `_update_colspan_attrib`: walk the `|`-separated
pieces of the raw row text tracking `td_index` and `td_last_active_index`.
An empty piece (or a `~~` sentinel piece) fetches the last active cell —
raising the diagnostic `IndexError` when that index is beyond the row —
and, when `td_index` is still inside the row, bumps that cell's `colspan`
and queues the cell at `td_index` for removal. -/
def colspanLoop (tIndex trIndex : Nat) :
    List (List Char) → Nat → Nat → List Cell → List (Nat × Nat) →
    Except PyErr (List Cell × List (Nat × Nat))
  | [], _, _, tr, q => .ok (tr, q)
  | c :: cs, tdIndex, lastActive, tr, q =>
    if pieceIsEmptyMarker c then
      match tr.get? lastActive with
      | none => .error (.mergeIndexError tIndex (trIndex + 1) (cellDump tr))
      | some td =>
        if tdIndex < tr.length then
          match (match attribGet td.attrib "colspan" with
                 | some v => pyInt v
                 | none => .ok 1) with
          | .error e => .error e
          | .ok span =>
            let tr' := modifyAt tr lastActive
              (setCellAttr "colspan" (toString (span + 1)))
            match tr'.get? tdIndex with
            | none => .error .listIndexError
            | some victim =>
              colspanLoop tIndex trIndex cs (tdIndex + 1) lastActive tr'
                (q ++ [(trIndex, victim.id)])
        else colspanLoop tIndex trIndex cs (tdIndex + 1) lastActive tr q
    else colspanLoop tIndex trIndex cs (tdIndex + 1) tdIndex tr q

/-- Method `_update_colspan_attrib(text, t_index, tr_index, tr, td_remove)`:
strip the leading pipe from the raw row text, split on `|`, and run the
piece loop. -/
def updateColspanAttrib (text : String) (tIndex trIndex : Nat) (tr : List Cell)
    (q : List (Nat × Nat)) : Except PyErr (List Cell × List (Nat × Nat)) :=
  colspanLoop tIndex trIndex (pySplitChars '|' (removeLeadPipe text).toList) 0 0 tr q

/-- The inner `for td in tr` loop of `run`: test each cell's text against
`RE_row_span_marker` (a `TypeError` if the text is `None`) and run
`_update_rowspan_attrib` on matches.  `m` counts the remaining cells. -/
def markerLoop (trIndex : Nat) :
    Nat → Nat → List (List Cell) → List (Nat × Nat) →
    Except PyErr (List (List Cell) × List (Nat × Nat))
  | 0, _, tbody, q => .ok (tbody, q)
  | m + 1, tdIndex, tbody, q =>
    match getCell tbody trIndex tdIndex with
    | .error e => .error e
    | .ok td =>
      match asString td.text with
      | .error e => .error e
      | .ok s =>
        if markerMatch s then
          match updateRowspanAttrib tbody trIndex tdIndex q with
          | .error e => .error e
          | .ok (tbody', q') => markerLoop trIndex m (tdIndex + 1) tbody' q'
        else markerLoop trIndex m (tdIndex + 1) tbody q

/-- The column-merge check at the top of the `for tr in tbody` loop of
`run`: `tr_index + 2 in rows and RE_adjacent_bars.search(rows[tr_index+2])`
(whose first conjunct compares an integer with strings), running
`_update_colspan_attrib` on the row when it passes. -/
def colspanPhase (rows : List String) (tIndex trIndex : Nat)
    (tbody : List (List Cell)) (q : List (Nat × Nat)) :
    Except PyErr (List (List Cell) × List (Nat × Nat)) :=
  if intInStrList (trIndex + 2) rows then
    match listGet rows (trIndex + 2) with
    | .error e => .error e
    | .ok line =>
      if hasAdjacentBars line.toList then
        match updateColspanAttrib line tIndex trIndex (tbody.getD trIndex []) q with
        | .error e => .error e
        | .ok (tr', q') => .ok (tbody.set trIndex tr', q')
      else .ok (tbody, q)
  else .ok (tbody, q)

/-- One iteration of the `for tr in tbody` loop of `run`: the column-merge
check, then the row-span marker loop over the row's cells. -/
def rowStep (rows : List String) (tIndex trIndex : Nat)
    (tbody : List (List Cell)) (q : List (Nat × Nat)) :
    Except PyErr (List (List Cell) × List (Nat × Nat)) :=
  match colspanPhase rows tIndex trIndex tbody q with
  | .error e => .error e
  | .ok (tbody1, q1) =>
    markerLoop trIndex ((tbody1.getD trIndex []).length) 0 tbody1 q1

/-- The `for tr in tbody` loop of `run`, with `k` rows still to process and
`trIndex` the current row index. -/
def detectRows (rows : List String) (tIndex : Nat) :
    Nat → Nat → List (List Cell) → List (Nat × Nat) →
    Except PyErr (List (List Cell) × List (Nat × Nat))
  | 0, _, tbody, q => .ok (tbody, q)
  | k + 1, trIndex, tbody, q =>
    match rowStep rows tIndex trIndex tbody q with
    | .error e => .error e
    | .ok (tbody', q') => detectRows rows tIndex k (trIndex + 1) tbody' q'

/-- Python's `tr.remove(td)`: delete the first child identical to `td`,
raising `ValueError` when there is none. -/
def listRemoveFirst (cid : Nat) : List Cell → Except PyErr (List Cell)
  | [] => .error (.valueError "list.remove(x): x not in list")
  | c :: rest =>
    if c.id = cid then .ok rest
    else
      match listRemoveFirst cid rest with
      | .error e => .error e
      | .ok rest' => .ok (c :: rest')

/-- One step of the removal pass: `if td in tr: tr.remove(td)` — the
membership guard makes the step a no-op when the cell is already gone. -/
def removeStep (row : List Cell) (cid : Nat) : Except PyErr (List Cell) :=
  if row.any (fun c => c.id = cid) then listRemoveFirst cid row else .ok row

/-- The end-of-table removal pass `for tr, td in td_remove: ...` of `run`,
applied to the queued `(row index, cell id)` pairs in order. -/
def removePass : List (Nat × Nat) → List (List Cell) → Except PyErr (List (List Cell))
  | [], tbody => .ok tbody
  | (r, cid) :: rest, tbody =>
    match removeStep (tbody.getD r []) cid with
    | .error e => .error e
    | .ok row' => removePass rest (tbody.set r row')

/-- Processing of one table by `run`: detection over every row of the
unmutated tree (attribute writes aside), then the single removal pass.
`tIndex` is the already-incremented, 1-based table number used in the
colspan diagnostics. -/
def processTable (rows : List String) (tIndex : Nat) (tbody : List (List Cell)) :
    Except PyErr (List (List Cell)) :=
  match detectRows rows tIndex tbody.length 0 tbody [] with
  | .error e => .error e
  | .ok (tbody', q) => removePass q tbody'

/-- Method `CellRowSpanTreeProcessor.run`: for each table of the document, fetch
its recorded raw source block, split it into lines, and process the table
body.  `tIndex` is the 0-based running index into `table_blocks`. -/
def runTables (blocks : List String) :
    Nat → List (List (List Cell)) → Except PyErr (List (List (List Cell)))
  | _, [] => .ok []
  | tIndex, tbody :: rest =>
    match listGet blocks tIndex with
    | .error e => .error e
    | .ok block =>
      match processTable (block.splitOn "\n") (tIndex + 1) tbody with
      | .error e => .error e
      | .ok tbody' =>
        match runTables blocks (tIndex + 1) rest with
        | .error e => .error e
        | .ok rest' => .ok (tbody' :: rest')

/-- Method `CellRowSpanBlockProcessor.run(parent, blocks)`: append `blocks[0]` to
the shared `table_blocks` list and return `False`, declining to claim the
block. -/
def blockProcessorRun (table_blocks : List String) (blocks : List String) :
    Except PyErr (List String × Bool) :=
  match blocks.get? 0 with
  | none => .error .listIndexError
  | some b => .ok (table_blocks ++ [b], false)

/-! Derived predicates used to state the claims -/

/-- A cell that carries string text which is not a row-span marker: such a
cell is ignored by the marker loop. -/
def nonMarkerCell (c : Cell) : Bool :=
  match c.text with
  | some s => !(markerMatch s)
  | none => false

/-- The blank test of the upward scan, read off the unmodified tree: the
cell at `(r, c)` exists, carries string text, and that text passes
`RE_empty_cell`. -/
def blankAt (tbody : List (List Cell)) (r c : Nat) : Bool :=
  match getCell tbody r c with
  | .ok td =>
    match td.text with
    | some s => emptyCellMatch s
    | none => false
  | .error _ => false

/-- The identities queued for removal from row `r`. -/
def queuedIds (q : List (Nat × Nat)) (r : Nat) : List Nat :=
  (q.filter (fun p => p.1 = r)).map (fun p => p.2)

/-- Every cell strictly before position `(r, c)` in the processing order
(row by row, left to right) carries non-marker string text. -/
def cellsBeforeNonMarker (tbody : List (List Cell)) (r c : Nat) : Bool :=
  ((List.range r).all (fun r' => (tbody.getD r' []).all nonMarkerCell)) &&
    ((tbody.getD r []).take c).all nonMarkerCell

/-- Any `colspan` attribute already present on the cell parses as a
decimal numeral (trivially true for the attribute-free cells the upstream
table stage produces). -/
def colspanValueOk (c : Cell) : Bool :=
  match attribGet c.attrib "colspan" with
  | some v =>
    match pyInt v with
    | .ok _ => true
    | .error _ => false
  | none => true

/-- Row-wide version of `colspanValueOk`. -/
def colspanRowOk (tr : List Cell) : Bool := tr.all colspanValueOk

/-- The malformed-row condition of claim C6, transcribed over the pieces of
the split row text: some empty-cell merge marker piece occurs while the
index of the most recent non-empty piece (`td_last_active_index`, initially
`la`) is at or beyond the end of the cell row — more separators than cells.
`tdIndex` is the absolute index of the first piece of the list. -/
def colspanBadFrom : List (List Char) → Nat → Nat → Nat → Bool
  | [], _, _, _ => false
  | p :: ps, tdIndex, la, n =>
    (pieceIsEmptyMarker p && decide (n ≤ la)) ||
      colspanBadFrom ps (tdIndex + 1) (if pieceIsEmptyMarker p then la else tdIndex) n

/-- The row dump as a function of the cell texts alone. -/
def dumpOfTexts (ts : List (Option String)) : String :=
  String.join (ts.enum.map (fun p => cellDumpLine p.1 p.2))

/-- Every row of the column up to and including `trIndex` holds a cell at
`tdIndex` whose text is a string — the shape the upstream table stage
guarantees for the column a row-span marker sits in. -/
def columnHasTexts (tbody : List (List Cell)) (tdIndex trIndex : Nat) : Bool :=
  (List.range (trIndex + 1)).all (fun j =>
    match (tbody.getD j []).get? tdIndex with
    | some cl => cl.text.isSome
    | none => false)

/-- Claim C4's classification, written exactly as the claim states it: the
text starts with an underscore, ends with an underscore, and every
character in between is one of space, underscore, `^`, `=`. -/
def claimMarkerSpec (s : String) : Prop :=
  s.toList ≠ [] ∧ s.toList.head? = some '_' ∧ s.toList.getLast? = some '_' ∧
    ∀ c ∈ (s.toList.drop 1).dropLast, isMarkerClassChar c = true

/-- The amended classification: an underscore, then characters from the
class, then an underscore — of length at least two — optionally followed by
one final newline (which Python's `$` tolerates). -/
def amendedMarkerSpec (s : String) : Prop :=
  ∃ mid : List Char, (∀ c ∈ mid, isMarkerClassChar c = true) ∧
    (s.toList = '_' :: (mid ++ ['_']) ∨ s.toList = '_' :: (mid ++ ['_', '\n']))

/-! Concrete inputs used by the counterexample-style theorems -/

/-- A three-column table row tree for the column-merge examples: the raw
row text `| x || z |` makes the upstream stage produce a three-cell row
whose middle cell is empty. -/
def c1tbody : List (List Cell) :=
  [[Cell.mk 0 (some "x") [], Cell.mk 1 (some "") [], Cell.mk 2 (some "z") []]]

/-- The raw source lines of the table around `c1tbody`. -/
def c1rows : List String :=
  ["| a | b | c |", "| --- | --- | --- |", "| x || z |"]

/-- A one-column, two-row table: non-blank text above a row-span marker
requesting top alignment. -/
def c2tbody : List (List Cell) :=
  [[Cell.mk 0 (some "top") []], [Cell.mk 1 (some "_^_") []]]

/-- The raw source lines of the table around `c2tbody`. -/
def c2rows : List String :=
  ["| A |", "| - |", "| top |", "|_^_|"]

/-- A table holding a row-span marker that asks for both top and bottom
alignment. -/
def c3tbody : List (List Cell) :=
  [[Cell.mk 0 (some "x") []], [Cell.mk 1 (some "_^=_") []]]

/-- The raw source lines of the table around `c3tbody`. -/
def c3rows : List String :=
  ["| A |", "| - |", "| x |", "|_^=_|"]

/-! Helper lemmas -/

/-- An integer is never equal to any string under Python `==`, so the
membership test `tr_index + 2 in rows` is false for every list of raw
lines. -/
theorem intInStrList_false (n : Nat) (rows : List String) :
    intInStrList n rows = false := by
  induction rows with
  | nil => rfl
  | cons h t ih => simp [intInStrList, pyIntEqStr, List.any_cons]

/-- Because its guard is always false, the column-merge phase of `run`
returns its inputs unchanged. -/
theorem colspanPhase_skip (rows : List String) (tIndex trIndex : Nat)
    (tbody : List (List Cell)) (q : List (Nat × Nat)) :
    colspanPhase rows tIndex trIndex tbody q = .ok (tbody, q) := by
  simp [colspanPhase, intInStrList_false]

/-- Structure of strings accepted by `markerTail`: some run of class
characters ended by an underscore. -/
theorem markerTail_iff (l : List Char) :
    markerTail l = true ↔
      ∃ mid, (∀ c ∈ mid, isMarkerClassChar c = true) ∧ l = mid ++ ['_'] := by
  induction l with
  | nil =>
    simp [markerTail]
  | cons c rest ih =>
    cases rest with
    | nil =>
      constructor
      · intro h
        simp only [markerTail, decide_eq_true_eq] at h
        exact ⟨[], by simp, by simp [h]⟩
      · rintro ⟨mid, hmid, heq⟩
        cases mid with
        | nil =>
          simp only [List.nil_append, List.cons.injEq] at heq
          simp [markerTail, heq.1]
        | cons a as => simp at heq
    | cons c2 rest2 =>
      rw [show markerTail (c :: c2 :: rest2) =
            (isMarkerClassChar c && markerTail (c2 :: rest2)) from rfl]
      rw [Bool.and_eq_true, ih]
      constructor
      · rintro ⟨hc, mid, hall, heq⟩
        refine ⟨c :: mid, ?_, by simp [heq]⟩
        intro x hx
        rcases List.mem_cons.mp hx with rfl | hx
        · exact hc
        · exact hall x hx
      · rintro ⟨mid, hall, heq⟩
        cases mid with
        | nil => simp at heq
        | cons a as =>
          simp only [List.cons_append, List.cons.injEq] at heq
          obtain ⟨rfl, heq⟩ := heq
          exact ⟨hall c (by simp), as, fun x hx => hall x (by simp [hx]), heq⟩

/-- Structure of strings accepted by `markerCore`: underscore, class
characters, underscore. -/
theorem markerCore_iff (l : List Char) :
    markerCore l = true ↔
      ∃ mid, (∀ c ∈ mid, isMarkerClassChar c = true) ∧ l = '_' :: (mid ++ ['_']) := by
  cases l with
  | nil => simp [markerCore]
  | cons c rest =>
    rw [show markerCore (c :: rest) = ((c = '_') && markerTail rest) from rfl]
    rw [Bool.and_eq_true, markerTail_iff]
    constructor
    · rintro ⟨hc, mid, hall, heq⟩
      have hc' : c = '_' := by simpa using hc
      exact ⟨mid, hall, by rw [hc', heq]⟩
    · rintro ⟨mid, hall, heq⟩
      rw [List.cons.injEq] at heq
      obtain ⟨rfl, rfl⟩ := heq
      exact ⟨by simp, mid, hall, rfl⟩

/-- Reading `getD` under a failed lookup. -/
theorem getD_of_get?_none {α : Type} (l : List α) (n : Nat) (d : α)
    (h : l.get? n = none) : l.getD n d = d := by
  simp [List.getD_eq_getElem?_getD, ← List.get?_eq_getElem?, h]

/-- Reading `getD` under a successful lookup. -/
theorem getD_of_get?_some {α : Type} (l : List α) (n : Nat) (d a : α)
    (h : l.get? n = some a) : l.getD n d = a := by
  simp [List.getD_eq_getElem?_getD, ← List.get?_eq_getElem?, h]

/-- Evaluating `getCell` at an index known to hold a cell. -/
theorem getCell_eq_some (tbody : List (List Cell)) (r c : Nat) (row : List Cell)
    (td : Cell) (h1 : tbody.get? r = some row) (h2 : row.get? c = some td) :
    getCell tbody r c = .ok td := by
  simp only [getCell, h1, h2]

/-- The marker loop leaves everything unchanged while it only meets
non-marker string cells. -/
theorem markerLoop_noop (trIndex : Nat) (tbody : List (List Cell))
    (q : List (Nat × Nat)) (row : List Cell) (hrow : tbody.get? trIndex = some row)
    (hall : ∀ c ∈ row, nonMarkerCell c = true) :
    ∀ m tdIndex, tdIndex + m ≤ row.length →
      markerLoop trIndex m tdIndex tbody q = .ok (tbody, q) := by
  intro m
  induction m with
  | zero => intro tdIndex _; rfl
  | succ m ih =>
    intro tdIndex h
    have hlt : tdIndex < row.length := by omega
    obtain ⟨td, htd⟩ : ∃ td, row.get? tdIndex = some td := by
      rw [List.get?_eq_get hlt]; exact ⟨_, rfl⟩
    have hnm := hall td (List.get?_mem htd)
    cases htext : td.text with
    | none =>
      simp only [nonMarkerCell, htext] at hnm
      exact absurd hnm (by simp)
    | some s =>
      simp only [nonMarkerCell, htext, Bool.not_eq_true'] at hnm
      simp only [markerLoop, getCell_eq_some tbody trIndex tdIndex row td hrow htd,
        htext, asString, hnm, Bool.false_eq_true, if_false]
      exact ih (tdIndex + 1) (by omega)

/-- A row whose cells are all non-marker strings is processed without any
effect. -/
theorem rowStep_noop (rows : List String) (tIndex trIndex : Nat)
    (tbody : List (List Cell)) (q : List (Nat × Nat))
    (hall : ∀ c ∈ tbody.getD trIndex [], nonMarkerCell c = true) :
    rowStep rows tIndex trIndex tbody q = .ok (tbody, q) := by
  simp only [rowStep, colspanPhase_skip rows tIndex trIndex tbody q]
  cases hrow : tbody.get? trIndex with
  | none =>
    rw [getD_of_get?_none tbody trIndex [] hrow]
    rfl
  | some row =>
    rw [getD_of_get?_some tbody trIndex [] row hrow]
    refine markerLoop_noop trIndex tbody q row hrow ?_ row.length 0 (by omega)
    rw [getD_of_get?_some tbody trIndex [] row hrow] at hall
    exact hall

/-- Cells reached through `getD` belong to the table. -/
theorem getD_cells_nonMarker (tbody : List (List Cell)) (i : Nat)
    (hall : ∀ row ∈ tbody, ∀ c ∈ row, nonMarkerCell c = true) :
    ∀ c ∈ tbody.getD i [], nonMarkerCell c = true := by
  cases hrow : tbody.get? i with
  | none =>
    rw [getD_of_get?_none tbody i [] hrow]
    intro c hc
    cases hc
  | some row =>
    rw [getD_of_get?_some tbody i [] row hrow]
    exact hall row (List.get?_mem hrow)

/-- Detection over a table of non-marker string cells changes nothing and
queues nothing. -/
theorem detectRows_noop (rows : List String) (tIndex : Nat)
    (tbody : List (List Cell)) (q : List (Nat × Nat))
    (hall : ∀ row ∈ tbody, ∀ c ∈ row, nonMarkerCell c = true) :
    ∀ k trIndex, detectRows rows tIndex k trIndex tbody q = .ok (tbody, q) := by
  intro k
  induction k with
  | zero => intro trIndex; rfl
  | succ k ih =>
    intro trIndex
    rw [detectRows, rowStep_noop rows tIndex trIndex tbody q
          (getD_cells_nonMarker tbody trIndex hall)]
    exact ih (trIndex + 1)

/-- A row containing no cell of the given identity is left whole by the
filter that drops that identity. -/
theorem filter_id_eq_self (row : List Cell) (cid : Nat)
    (h : row.any (fun c => c.id = cid) = false) :
    row.filter (fun c => !(decide (c.id = cid))) = row := by
  rw [List.filter_eq_self]
  intro a ha
  rw [List.any_eq_false] at h
  have := h a ha
  simpa using this

/-- When the identity is present and identities are distinct,
`list.remove` deletes exactly the occurrences of that identity. -/
theorem listRemoveFirst_ok (cid : Nat) :
    ∀ row : List Cell, row.any (fun c => c.id = cid) = true →
      (row.map Cell.id).Nodup →
      listRemoveFirst cid row = .ok (row.filter (fun c => !(decide (c.id = cid)))) := by
  intro row
  induction row with
  | nil => intro h _; simp at h
  | cons c rest ih =>
    intro hany hnd
    simp only [List.map_cons, List.nodup_cons] at hnd
    by_cases hc : c.id = cid
    · rw [listRemoveFirst, if_pos hc]
      have hrest : rest.filter (fun x => !(decide (x.id = cid))) = rest := by
        apply filter_id_eq_self
        rw [List.any_eq_false]
        intro x hx
        simp only [decide_eq_true_eq]
        intro hxid
        exact hnd.1 (hc ▸ hxid ▸ List.mem_map_of_mem Cell.id hx)
      simp [hc, hrest]
    · rw [listRemoveFirst, if_neg hc]
      have hany' : rest.any (fun x => x.id = cid) = true := by
        simp only [List.any_cons] at hany
        rcases Bool.or_eq_true_iff.mp hany with h1 | h2
        · exact absurd (by simpa using h1) hc
        · exact h2
      rw [ih hany' hnd.2]
      simp [hc]

/-- The guarded removal step never raises and removes the queued identity
exactly where present. -/
theorem removeStep_spec (row : List Cell) (cid : Nat)
    (hnd : (row.map Cell.id).Nodup) :
    removeStep row cid = .ok (row.filter (fun c => !(decide (c.id = cid)))) := by
  rw [removeStep]
  cases hany : row.any (fun c => c.id = cid) with
  | false => rw [if_neg (by simp [hany]), filter_id_eq_self row cid hany]
  | true => rw [if_pos (by simp [hany])]; exact listRemoveFirst_ok cid row hany hnd

/-- Unfolding `queuedIds` over a head entry that targets the row. -/
theorem queuedIds_cons_self (r cid : Nat) (rest : List (Nat × Nat)) :
    queuedIds ((r, cid) :: rest) r = cid :: queuedIds rest r := by
  simp [queuedIds, List.filter_cons]

/-- Unfolding `queuedIds` over a head entry that targets another row. -/
theorem queuedIds_cons_ne (r0 cid : Nat) (rest : List (Nat × Nat)) (r : Nat)
    (h : r0 ≠ r) :
    queuedIds ((r0, cid) :: rest) r = queuedIds rest r := by
  simp [queuedIds, List.filter_cons, h]

/-- Rows fetched by `getD` keep distinct identities. -/
theorem nodup_getD (tbody : List (List Cell))
    (hnd : ∀ row ∈ tbody, (row.map Cell.id).Nodup) (i : Nat) :
    ((tbody.getD i []).map Cell.id).Nodup := by
  cases hrow : tbody.get? i with
  | none => rw [getD_of_get?_none _ _ _ hrow]; simp
  | some row => rw [getD_of_get?_some _ _ _ _ hrow]; exact hnd row (List.get?_mem hrow)

/-- The removal pass characterised pointwise: it always succeeds, and row
`r` of the result is row `r` of the input with the queued identities
filtered out — each at most once, regardless of duplicate queue entries. -/
theorem removePass_pointwise :
    ∀ (q : List (Nat × Nat)) (tbody : List (List Cell)),
      (∀ row ∈ tbody, (row.map Cell.id).Nodup) →
      ∃ tbody', removePass q tbody = .ok tbody' ∧
        tbody'.length = tbody.length ∧
        ∀ r, tbody'.get? r =
          (tbody.get? r).map
            (fun row => row.filter (fun c => !(decide (c.id ∈ queuedIds q r)))) := by
  intro q
  induction q with
  | nil =>
    intro tbody _
    refine ⟨tbody, rfl, rfl, ?_⟩
    intro r
    cases tbody.get? r <;> simp [queuedIds]
  | cons p rest ih =>
    obtain ⟨r0, cid⟩ := p
    intro tbody hnd
    have hstep := removeStep_spec (tbody.getD r0 []) cid (nodup_getD tbody hnd r0)
    have hnd' : ∀ row ∈ tbody.set r0 ((tbody.getD r0 []).filter
        (fun c => !(decide (c.id = cid)))), (row.map Cell.id).Nodup := by
      intro row hrow
      rcases List.mem_or_eq_of_mem_set hrow with hmem | rfl
      · exact hnd row hmem
      · exact List.Nodup.sublist ((List.filter_sublist _).map Cell.id)
          (nodup_getD tbody hnd r0)
    obtain ⟨tbody', hrun, hlen, hget⟩ := ih _ hnd'
    refine ⟨tbody', ?_, by rw [hlen, List.length_set], ?_⟩
    · rw [removePass, hstep]
      exact hrun
    · intro r
      rw [hget r]
      by_cases hr : r0 = r
      · subst hr
        cases hrow : tbody.get? r0 with
        | none =>
          have h1 : (tbody.set r0 ((tbody.getD r0 []).filter
              (fun c => !(decide (c.id = cid))))).get? r0 = none := by
            rw [List.get?_set_eq, hrow]; rfl
          rw [h1]
          rfl
        | some row =>
          have hgd := getD_of_get?_some tbody r0 [] row hrow
          have h1 : (tbody.set r0 ((tbody.getD r0 []).filter
              (fun c => !(decide (c.id = cid))))).get? r0 =
              some (row.filter (fun c => !(decide (c.id = cid)))) := by
            rw [List.get?_set_eq, hrow, hgd]; rfl
          rw [h1]
          simp only [Option.map_some', Option.some.injEq, List.filter_filter]
          apply List.filter_congr
          intro a _
          by_cases h1 : a.id = cid <;> by_cases h2 : a.id ∈ queuedIds rest r0 <;>
            simp [queuedIds_cons_self, h1, h2]
      · have h1 : (tbody.set r0 ((tbody.getD r0 []).filter
            (fun c => !(decide (c.id = cid))))).get? r = tbody.get? r :=
          List.get?_set_ne _ _ hr
        rw [h1]
        simp only [queuedIds_cons_ne r0 cid rest r hr]

/-- Parsing the digit character of a value below ten. -/
theorem decDigit?_digitChar (d : Nat) (h : d < 10) :
    decDigit? (Nat.digitChar d) = some d := by
  have hall : ∀ x, x < 10 → decDigit? (Nat.digitChar x) = some x := by decide
  exact hall d h

/-- The accumulating parser consumes the digits printed by
`Nat.toDigitsCore` and picks up exactly the printed value. -/
theorem parseDec_toDigitsCore :
    ∀ (fuel n : Nat) (ds : List Char) (acc : Nat), n < fuel →
      ∃ e, 0 < e ∧
        parseDecCore (Nat.toDigitsCore 10 fuel n ds) acc =
          parseDecCore ds (acc * 10 ^ e + n) := by
  intro fuel
  induction fuel with
  | zero => intro n ds acc h; omega
  | succ fuel ih =>
    intro n ds acc h
    rw [Nat.toDigitsCore]
    by_cases h10 : n / 10 = 0
    · rw [if_pos h10]
      refine ⟨1, by omega, ?_⟩
      rw [parseDecCore, decDigit?_digitChar (n % 10) (Nat.mod_lt _ (by omega))]
      have hn : n % 10 = n := by omega
      rw [hn, pow_one]
    · rw [if_neg h10]
      have hlt : n / 10 < fuel := by
        have : n / 10 < n := Nat.div_lt_self (by omega) (by omega)
        omega
      obtain ⟨e, he, hparse⟩ := ih (n / 10) (Nat.digitChar (n % 10) :: ds) acc hlt
      refine ⟨e + 1, by omega, ?_⟩
      rw [hparse, parseDecCore, decDigit?_digitChar (n % 10) (Nat.mod_lt _ (by omega))]
      have hdm := Nat.div_add_mod n 10
      have heq : (acc * 10 ^ e + n / 10) * 10 + n % 10 = acc * 10 ^ (e + 1) + n := by
        rw [pow_succ]
        ring_nf
        omega
      show parseDecCore ds ((acc * 10 ^ e + n / 10) * 10 + n % 10) =
        parseDecCore ds (acc * 10 ^ (e + 1) + n)
      rw [heq]

/-- The digit printer never returns an empty list when started on a
non-empty accumulator. -/
theorem toDigitsCore_ne_nil :
    ∀ (fuel n : Nat) (ds : List Char), ds ≠ [] →
      Nat.toDigitsCore 10 fuel n ds ≠ [] := by
  intro fuel
  induction fuel with
  | zero => intro n ds h; exact h
  | succ fuel ih =>
    intro n ds h
    rw [Nat.toDigitsCore]
    by_cases h10 : n / 10 = 0
    · rw [if_pos h10]; simp
    · rw [if_neg h10]; exact ih _ _ (by simp)

/-- The decimal representation printed for a natural number is non-empty. -/
theorem toDigits_ne_nil (n : Nat) : Nat.toDigits 10 n ≠ [] := by
  rw [Nat.toDigits, Nat.toDigitsCore]
  by_cases h10 : n / 10 = 0
  · rw [if_pos h10]; simp
  · rw [if_neg h10]; exact toDigitsCore_ne_nil _ _ _ (by simp)

/-- Round trip between `str` and `int` on a natural number. -/
theorem pyInt_toString (n : Nat) : pyInt (toString n) = .ok n := by
  have htl : (toString n).toList = Nat.toDigits 10 n := rfl
  rw [pyInt, htl]
  obtain ⟨e, _, hp⟩ := parseDec_toDigitsCore (n + 1) n [] 0 (by omega)
  rw [show Nat.toDigits 10 n = Nat.toDigitsCore 10 (n + 1) n [] from rfl, hp,
    parseDecCore]
  have hne : Nat.toDigitsCore 10 (n + 1) n [] ≠ [] := by
    rw [show Nat.toDigitsCore 10 (n + 1) n [] = Nat.toDigits 10 n from rfl]
    exact toDigits_ne_nil n
  have hempty : (Nat.toDigitsCore 10 (n + 1) n []).isEmpty = false := by
    cases hd : Nat.toDigitsCore 10 (n + 1) n [] with
    | nil => exact absurd hd hne
    | cons a l => rfl
  rw [hempty]
  simp

/-- Applying `modifyAt` keeps the length of the list. -/
theorem modifyAt_length {α : Type} :
    ∀ (l : List α) (i : Nat) (f : α → α), (modifyAt l i f).length = l.length := by
  intro l
  induction l with
  | nil => intro i f; rfl
  | cons a rest ih =>
    intro i f
    cases i with
    | zero => rfl
    | succ i => simp [modifyAt, ih i f]

/-- Applying `modifyAt` commutes with any projection the function preserves. -/
theorem modifyAt_map {α β : Type} (g : α → β) (f : α → α)
    (hf : ∀ a, g (f a) = g a) :
    ∀ (l : List α) (i : Nat), (modifyAt l i f).map g = l.map g := by
  intro l
  induction l with
  | nil => intro i; rfl
  | cons a rest ih =>
    intro i
    cases i with
    | zero => simp [modifyAt, hf a]
    | succ i => simp [modifyAt, ih i]

/-- Applying `modifyAt` preserves any cell-wise invariant that the function
preserves. -/
theorem modifyAt_all {α : Type} (p : α → Bool) (f : α → α)
    (hf : ∀ a, p a = true → p (f a) = true) :
    ∀ (l : List α) (i : Nat), l.all p = true → (modifyAt l i f).all p = true := by
  intro l
  induction l with
  | nil => intro i h; exact h
  | cons a rest ih =>
    intro i h
    rw [List.all_cons, Bool.and_eq_true] at h
    cases i with
    | zero => simp [modifyAt, hf a h.1, h.2]
    | succ i => simp [modifyAt, h.1, ih i h.2]

/-- Setting an attribute leaves the text of the cell unchanged. -/
theorem setCellAttr_text (k v : String) (c : Cell) :
    (setCellAttr k v c).text = c.text := rfl

/-- Reading `td.get(key)` right after `td.set(key, value)` returns the value. -/
theorem attribGet_attribSet_self :
    ∀ (attrib : List (String × String)) (k v : String),
      attribGet (attribSet attrib k v) k = some v := by
  intro attrib k v
  induction attrib with
  | nil => simp [attribSet, attribGet]
  | cons p rest ih =>
    obtain ⟨k', v'⟩ := p
    by_cases h : k' = k
    · simp [attribSet, h, attribGet]
    · simp [attribSet, h, attribGet, ih]

/-- The row dump only depends on the cell texts. -/
theorem cellDump_eq_dumpOfTexts (tr : List Cell) :
    cellDump tr = dumpOfTexts (tr.map Cell.text) := by
  rw [cellDump, dumpOfTexts, List.enum_map, List.map_map]
  rfl

/-- Bumping a `colspan` with a freshly printed numeral keeps every
`colspan` attribute of the row parseable. -/
theorem colspanRowOk_set (tr : List Cell) (i m : Nat)
    (hok : colspanRowOk tr = true) :
    colspanRowOk (modifyAt tr i (setCellAttr "colspan" (toString m))) = true := by
  refine modifyAt_all colspanValueOk _ ?_ tr i hok
  intro a _
  simp only [colspanValueOk, setCellAttr]
  rw [attribGet_attribSet_self]
  simp [pyInt_toString]

/-- When the malformed-row condition holds, the piece loop of
`_update_colspan_attrib` raises the diagnostic `IndexError`, whose payload
carries the 1-based table number, the 1-based row number and the dump of
the row as it stood on entry. -/
theorem colspanLoop_bad (tIndex trIndex : Nat) :
    ∀ (ps : List (List Char)) (tdIndex la : Nat) (tr : List Cell)
      (q : List (Nat × Nat)),
      colspanRowOk tr = true →
      colspanBadFrom ps tdIndex la tr.length = true →
      colspanLoop tIndex trIndex ps tdIndex la tr q =
        .error (.mergeIndexError tIndex (trIndex + 1) (cellDump tr)) := by
  intro ps
  induction ps with
  | nil =>
    intro tdIndex la tr q _ hbad
    exact absurd hbad (by simp [colspanBadFrom])
  | cons p ps ih =>
    intro tdIndex la tr q hok hbad
    rw [colspanBadFrom, Bool.or_eq_true] at hbad
    by_cases hemp : pieceIsEmptyMarker p = true
    · rw [colspanLoop, if_pos hemp]
      by_cases hla : la < tr.length
      · have htail : colspanBadFrom ps (tdIndex + 1) la tr.length = true := by
          rcases hbad with hhead | htail
          · rw [Bool.and_eq_true, decide_eq_true_eq] at hhead
            omega
          · rwa [if_pos hemp] at htail
        obtain ⟨td, htd⟩ : ∃ td, tr.get? la = some td := by
          rw [List.get?_eq_get hla]; exact ⟨_, rfl⟩
        simp only [htd]
        by_cases hlen : tdIndex < tr.length
        · simp only [if_pos hlen]
          obtain ⟨sp, hsp⟩ : ∃ sp,
              (match attribGet td.attrib "colspan" with
               | some v => pyInt v
               | none => .ok 1) = Except.ok sp := by
            cases hga : attribGet td.attrib "colspan" with
            | none => exact ⟨1, rfl⟩
            | some v =>
              have hcv : colspanValueOk td = true := by
                rw [colspanRowOk, List.all_eq_true] at hok
                exact hok td (List.get?_mem htd)
              simp only [colspanValueOk, hga] at hcv
              cases hpi : pyInt v with
              | error e =>
                simp only [hpi] at hcv
                exact absurd hcv (by simp)
              | ok sp => exact ⟨sp, by simp [hpi]⟩
          simp only [hsp]
          have hlen' : tdIndex <
              (modifyAt tr la (setCellAttr "colspan" (toString (sp + 1)))).length := by
            rw [modifyAt_length]; exact hlen
          obtain ⟨victim, hvic⟩ : ∃ victim,
              (modifyAt tr la (setCellAttr "colspan" (toString (sp + 1)))).get?
                tdIndex = some victim := by
            rw [List.get?_eq_get hlen']; exact ⟨_, rfl⟩
          simp only [hvic]
          have hok' := colspanRowOk_set tr la (sp + 1) hok
          have hbad' : colspanBadFrom ps (tdIndex + 1) la
              (modifyAt tr la (setCellAttr "colspan" (toString (sp + 1)))).length =
                true := by
            rw [modifyAt_length]; exact htail
          rw [ih (tdIndex + 1) la _ _ hok' hbad']
          have htexts :
              (modifyAt tr la (setCellAttr "colspan" (toString (sp + 1)))).map
                Cell.text = tr.map Cell.text :=
            modifyAt_map Cell.text _ (setCellAttr_text "colspan" _) tr la
          rw [cellDump_eq_dumpOfTexts, cellDump_eq_dumpOfTexts tr, htexts]
        · simp only [if_neg hlen]
          exact ih (tdIndex + 1) la tr q hok htail
      · have hnone : tr.get? la = none := by
          rw [List.get?_eq_none]; omega
        simp only [hnone]
    · rw [colspanLoop, if_neg hemp]
      have htail : colspanBadFrom ps (tdIndex + 1) tdIndex tr.length = true := by
        rcases hbad with hhead | htail
        · rw [Bool.and_eq_true] at hhead
          exact absurd hhead.1 hemp
        · rwa [if_neg hemp] at htail
      exact ih (tdIndex + 1) tdIndex tr q hok htail

/-- The marker loop reaches a cell whose text is `None` and raises
`TypeError` from the regex call, provided every cell to its left in the row
is a non-marker string. -/
theorem markerLoop_hits_none (trIndex : Nat) (tbody : List (List Cell))
    (q : List (Nat × Nat)) (row : List Cell) (c : Nat) (cell : Cell)
    (hrow : tbody.get? trIndex = some row)
    (hcell : row.get? c = some cell) (hnone : cell.text = none)
    (hbefore : ∀ x ∈ row.take c, nonMarkerCell x = true) :
    ∀ m tdIndex, tdIndex ≤ c → c < tdIndex + m →
      markerLoop trIndex m tdIndex tbody q =
        .error (.typeError "expected string or bytes-like object") := by
  intro m
  induction m with
  | zero => intro tdIndex h1 h2; omega
  | succ m ih =>
    intro tdIndex h1 h2
    by_cases hc : tdIndex = c
    · subst hc
      simp only [markerLoop,
        getCell_eq_some tbody trIndex tdIndex row cell hrow hcell, hnone, asString]
    · have hlt : tdIndex < c := by omega
      have hclen : c < row.length := by
        obtain ⟨h, _⟩ := List.get?_eq_some.mp hcell
        exact h
      obtain ⟨td, htd⟩ : ∃ td, row.get? tdIndex = some td := by
        rw [List.get?_eq_get (by omega : tdIndex < row.length)]
        exact ⟨_, rfl⟩
      have htake : (row.take c).get? tdIndex = some td := by
        rw [List.get?_take hlt]
        exact htd
      have hnm := hbefore td (List.get?_mem htake)
      cases htext : td.text with
      | none =>
        simp only [nonMarkerCell, htext] at hnm
        exact absurd hnm (by simp)
      | some s =>
        simp only [nonMarkerCell, htext, Bool.not_eq_true'] at hnm
        simp only [markerLoop, getCell_eq_some tbody trIndex tdIndex row td hrow htd,
          htext, asString, hnm, Bool.false_eq_true, if_false]
        exact ih (tdIndex + 1) (by omega) (by omega)

/-- A row containing a `None`-text cell behind non-marker string cells
makes the row step raise `TypeError`. -/
theorem rowStep_hits_none (rows : List String) (tIndex trIndex : Nat)
    (tbody : List (List Cell)) (q : List (Nat × Nat)) (row : List Cell)
    (c : Nat) (cell : Cell) (hrow : tbody.get? trIndex = some row)
    (hcell : row.get? c = some cell) (hnone : cell.text = none)
    (hbefore : ∀ x ∈ row.take c, nonMarkerCell x = true) :
    rowStep rows tIndex trIndex tbody q =
      .error (.typeError "expected string or bytes-like object") := by
  simp only [rowStep, colspanPhase_skip rows tIndex trIndex tbody q]
  rw [getD_of_get?_some tbody trIndex [] row hrow]
  have hclen : c < row.length := by
    obtain ⟨h, _⟩ := List.get?_eq_some.mp hcell
    exact h
  exact markerLoop_hits_none trIndex tbody q row c cell hrow hcell hnone hbefore
    row.length 0 (by omega) (by omega)

/-- Detection reaches the row holding the `None`-text cell and propagates
the `TypeError`, all earlier rows being no-ops. -/
theorem detectRows_hits_none (rows : List String) (tIndex : Nat)
    (tbody : List (List Cell)) (q : List (Nat × Nat)) (r c : Nat)
    (row : List Cell) (cell : Cell) (hrow : tbody.get? r = some row)
    (hcell : row.get? c = some cell) (hnone : cell.text = none)
    (hrowsbefore : ∀ r' , r' < r → ∀ x ∈ tbody.getD r' [], nonMarkerCell x = true)
    (hbefore : ∀ x ∈ row.take c, nonMarkerCell x = true) :
    ∀ k trIndex, trIndex ≤ r → r < trIndex + k →
      detectRows rows tIndex k trIndex tbody q =
        .error (.typeError "expected string or bytes-like object") := by
  intro k
  induction k with
  | zero => intro trIndex h1 h2; omega
  | succ k ih =>
    intro trIndex h1 h2
    by_cases htr : trIndex = r
    · subst htr
      simp only [detectRows,
        rowStep_hits_none rows tIndex trIndex tbody q row c cell hrow hcell hnone
          hbefore]
    · simp only [detectRows,
        rowStep_noop rows tIndex trIndex tbody q (hrowsbefore trIndex (by omega))]
      exact ih (trIndex + 1) (by omega) (by omega)

/-- A successful `getD`-level lookup lifts to `getCell`. -/
theorem getCell_of_getD (tbody : List (List Cell)) (j c : Nat) (cl : Cell)
    (h : (tbody.getD j []).get? c = some cl) : getCell tbody j c = .ok cl := by
  cases hrow : tbody.get? j with
  | none =>
    rw [getD_of_get?_none _ _ _ hrow] at h
    simp at h
  | some row =>
    rw [getD_of_get?_some _ _ _ _ hrow] at h
    exact getCell_eq_some tbody j c row cl hrow h

/-- Unpacking the Boolean column-shape test. -/
theorem columnHasTexts_spec (tbody : List (List Cell)) (tdIndex trIndex : Nat)
    (h : columnHasTexts tbody tdIndex trIndex = true) :
    ∀ j, j ≤ trIndex →
      ∃ cl s, (tbody.getD j []).get? tdIndex = some cl ∧ cl.text = some s := by
  intro j hj
  rw [columnHasTexts, List.all_eq_true] at h
  have hthis := h j (List.mem_range.mpr (by omega))
  cases hg : (tbody.getD j []).get? tdIndex with
  | none => simp only [hg] at hthis; exact absurd hthis (by simp)
  | some cl =>
    simp only [hg] at hthis
    obtain ⟨s, hs⟩ := Option.isSome_iff_exists.mp hthis
    exact ⟨cl, s, rfl, hs⟩

/-- The queueing test at the marker row itself short-circuits to true. -/
theorem scanStep_marker_row (trIndex : Nat) (td : Cell) :
    scanStep trIndex trIndex td = .ok true := by
  rw [scanStep, if_pos rfl]

/-- Above the marker row, the queueing test computes exactly the blank
test of the unmodified tree. -/
theorem scanStep_blank_eq (trIndex j tdIndex : Nat) (tbody : List (List Cell))
    (td : Cell) (s : String) (hne : ¬ (j = trIndex))
    (hget : getCell tbody j tdIndex = .ok td) (htext : td.text = some s) :
    scanStep trIndex j td = .ok (blankAt tbody j tdIndex) := by
  rw [scanStep, if_neg hne]
  simp only [htext, asString, blankAt, hget]

/-- Characterisation of the upward scan strictly below the marker row: a
row is queued exactly when it and every row between it and the start row is
blank at the scanned column. -/
theorem scanUp_below (trIndex tdIndex : Nat) (tbody : List (List Cell))
    (hcol : ∀ j, j ≤ trIndex →
      ∃ cl s, (tbody.getD j []).get? tdIndex = some cl ∧ cl.text = some s) :
    ∀ r, r < trIndex →
      ∃ a qs, scanUp trIndex tdIndex tbody r = .ok (a, qs) ∧
        ∀ r', ((∃ i, (r', i) ∈ qs) ↔
          (r' ≤ r ∧ ∀ j, r' ≤ j → j ≤ r → blankAt tbody j tdIndex = true)) := by
  intro r
  induction r with
  | zero =>
    intro hr
    obtain ⟨cl, s, hget, htext⟩ := hcol 0 (by omega)
    have hgc := getCell_of_getD tbody 0 tdIndex cl hget
    have hss := scanStep_blank_eq trIndex 0 tdIndex tbody cl s (by omega) hgc htext
    cases hb : blankAt tbody 0 tdIndex with
    | true =>
      refine ⟨0, [(0, cl.id)], by simp [scanUp, hgc, hss, hb], ?_⟩
      intro r'
      constructor
      · rintro ⟨i, hi⟩
        simp only [List.mem_singleton, Prod.mk.injEq] at hi
        refine ⟨le_of_eq hi.1, ?_⟩
        intro j h1 h2
        have hj0 : j = 0 := by omega
        rw [hj0]
        exact hb
      · rintro ⟨h1, _⟩
        have h0 : r' = 0 := by omega
        subst h0
        exact ⟨cl.id, by simp⟩
    | false =>
      refine ⟨0, [], by simp [scanUp, hgc, hss, hb], ?_⟩
      intro r'
      constructor
      · rintro ⟨i, hi⟩
        simp at hi
      · rintro ⟨h1, h2⟩
        have := h2 0 (by omega) (by omega)
        rw [hb] at this
        exact absurd this (by simp)
  | succ r ih =>
    intro hr
    obtain ⟨a, qs, hscan, hiff⟩ := ih (by omega)
    obtain ⟨cl, s, hget, htext⟩ := hcol (r + 1) (by omega)
    have hgc := getCell_of_getD tbody (r + 1) tdIndex cl hget
    have hss := scanStep_blank_eq trIndex (r + 1) tdIndex tbody cl s (by omega) hgc htext
    cases hb : blankAt tbody (r + 1) tdIndex with
    | true =>
      refine ⟨a, (r + 1, cl.id) :: qs, by simp [scanUp, hgc, hss, hb, hscan], ?_⟩
      intro r'
      constructor
      · rintro ⟨i, hi⟩
        rcases List.mem_cons.mp hi with heq | hmem
        · rw [Prod.mk.injEq] at heq
          obtain ⟨rfl, -⟩ := heq
          refine ⟨le_refl _, ?_⟩
          intro j h1 h2
          have hj : j = r + 1 := by omega
          rw [hj]
          exact hb
        · have hprev := (hiff r').mp ⟨i, hmem⟩
          refine ⟨by omega, ?_⟩
          intro j h1 h2
          by_cases hj : j ≤ r
          · exact hprev.2 j h1 hj
          · have hj1 : j = r + 1 := by omega
            rw [hj1]
            exact hb
      · rintro ⟨h1, h2⟩
        by_cases hr' : r' = r + 1
        · subst hr'
          exact ⟨cl.id, by simp⟩
        · have hle : r' ≤ r := by omega
          obtain ⟨i, hi⟩ := (hiff r').mpr ⟨hle, fun j ha hb2 => h2 j ha (by omega)⟩
          exact ⟨i, by simp [hi]⟩
    | false =>
      refine ⟨r + 1, [], by simp [scanUp, hgc, hss, hb], ?_⟩
      intro r'
      constructor
      · rintro ⟨i, hi⟩
        simp at hi
      · rintro ⟨h1, h2⟩
        have := h2 (r + 1) h1 (le_refl _)
        rw [hb] at this
        exact absurd this (by simp)

/-- Characterisation of the whole upward scan started at the marker row:
the marker row is always queued, and a row above is queued exactly when it
and every row strictly between it and the marker row is blank at the
scanned column. -/
theorem scanUp_top (trIndex tdIndex : Nat) (tbody : List (List Cell))
    (hcol : ∀ j, j ≤ trIndex →
      ∃ cl s, (tbody.getD j []).get? tdIndex = some cl ∧ cl.text = some s) :
    ∃ a qs, scanUp trIndex tdIndex tbody trIndex = .ok (a, qs) ∧
      ∀ r, ((∃ i, (r, i) ∈ qs) ↔
        (r ≤ trIndex ∧ ∀ j, r ≤ j → j < trIndex → blankAt tbody j tdIndex = true)) := by
  cases trIndex with
  | zero =>
    obtain ⟨cl, s, hget, htext⟩ := hcol 0 (le_refl _)
    have hgc := getCell_of_getD tbody 0 tdIndex cl hget
    have hms := scanStep_marker_row 0 cl
    refine ⟨0, [(0, cl.id)], by simp [scanUp, hgc, hms], ?_⟩
    intro r
    constructor
    · rintro ⟨i, hi⟩
      simp only [List.mem_singleton, Prod.mk.injEq] at hi
      refine ⟨le_of_eq hi.1, ?_⟩
      intro j h1 h2
      omega
    · rintro ⟨h1, -⟩
      have h0 : r = 0 := by omega
      subst h0
      exact ⟨cl.id, by simp⟩
  | succ r0 =>
    obtain ⟨cl, s, hget, htext⟩ := hcol (r0 + 1) (le_refl _)
    have hgc := getCell_of_getD tbody (r0 + 1) tdIndex cl hget
    have hms := scanStep_marker_row (r0 + 1) cl
    obtain ⟨a, qs, hscan, hiff⟩ := scanUp_below (r0 + 1) tdIndex tbody hcol r0 (by omega)
    refine ⟨a, (r0 + 1, cl.id) :: qs, by simp [scanUp, hgc, hms, hscan], ?_⟩
    intro r'
    constructor
    · rintro ⟨i, hi⟩
      rcases List.mem_cons.mp hi with heq | hmem
      · rw [Prod.mk.injEq] at heq
        obtain ⟨rfl, -⟩ := heq
        refine ⟨le_refl _, ?_⟩
        intro j h1 h2
        omega
      · have hprev := (hiff r').mp ⟨i, hmem⟩
        refine ⟨by omega, ?_⟩
        intro j h1 h2
        exact hprev.2 j h1 (by omega)
    · rintro ⟨h1, h2⟩
      by_cases hr' : r' = r0 + 1
      · subst hr'
        exact ⟨cl.id, by simp⟩
      · have hle : r' ≤ r0 := by omega
        obtain ⟨i, hi⟩ := (hiff r').mpr ⟨hle, fun j ha hb2 => h2 j ha (by omega)⟩
        exact ⟨i, by simp [hi]⟩

/-! Claim theorems -/

/-- C1: the claim says a row with K trailing empty-cell markers after a
non-empty cell ends up with colspan = K+1 on that cell and K cells removed.
The code never does this: the guard `tr_index + 2 in rows` tests an integer
for membership in a list of strings, which is always false in Python, so
column-merge detection is dead code; the second conjunct evaluates the pass
on a row whose raw text `| x || z |` carries one trailing empty marker
(K = 1) and shows the table comes back unchanged — no colspan set, no cell
removed. -/
theorem c1_column_merge_detection_never_runs :
    (∀ rows tIndex trIndex tbody q,
        colspanPhase rows tIndex trIndex tbody q = .ok (tbody, q)) ∧
    processTable c1rows 1 c1tbody = .ok c1tbody :=
  ⟨fun rows tIndex trIndex tbody q => colspanPhase_skip rows tIndex trIndex tbody q,
   by rfl⟩

/-- C2: on a marker `_^_` under the non-blank cell `top`, the pass sets
`rowspan` = 2 on the anchor and removes the marker cell, but writes no
alignment attribute at all: the computed `v_align` is discarded
(`_update_rowspan_attrib` never calls `td.set` with it), contradicting the
claim (and the module's own documentation of `^`/`=` alignment). -/
theorem c2_alignment_attribute_never_written :
    processTable c2rows 1 c2tbody =
      .ok [[Cell.mk 0 (some "top") [("rowspan", "2")]], []] := by rfl

/-- C3: a marker containing both `^` and `=` does fail, but not with the
documented error: formatting the `ValueError` message reads
`self.table_count`, an attribute no statement of the source ever assigns,
so the attempt raises `AttributeError` — carrying no table, row or column
information at all. -/
theorem c3_conflicting_marker_attribute_error :
    processTable c3rows 1 c3tbody = .error (.attributeError "table_count") := by rfl

/-- C4 (counterexample): the claim's classification — starts with an
underscore, ends with an underscore, everything in between from the class —
is not equivalent to the code's `RE_row_span_marker` test: the one-character
text `_` starts and ends with an underscore with nothing in between, yet the
regex `^_[_^= ]*_$` demands two underscores and rejects it. -/
theorem c4_claim_counterexample :
    ¬ (markerMatch "_" = true ↔ claimMarkerSpec "_") := by
  intro h
  have h1 : claimMarkerSpec "_" := ⟨by decide, by decide, by decide, by decide⟩
  exact absurd (h.mpr h1) (by decide)

/-- C4 (amended): the code classifies a cell text as a row-span marker iff
it is an underscore, then zero or more characters from {space, underscore,
`^`, `=`}, then an underscore — so at least two characters — optionally
followed by one final newline, which Python's `$` anchor tolerates. -/
theorem c4_marker_classification_amended (s : String) :
    markerMatch s = true ↔ amendedMarkerSpec s := by
  unfold markerMatch amendedMarkerSpec
  rw [Bool.or_eq_true]
  constructor
  · rintro (h | h)
    · obtain ⟨mid, hall, heq⟩ := (markerCore_iff _).mp h
      exact ⟨mid, hall, Or.inl heq⟩
    · cases hl : s.toList.getLast? with
      | none => rw [hl] at h; simp at h
      | some ch =>
        rw [hl] at h
        simp only [Bool.and_eq_true, decide_eq_true_eq] at h
        obtain ⟨hch, hcore⟩ := h
        obtain ⟨mid, hall, heq⟩ := (markerCore_iff _).mp hcore
        refine ⟨mid, hall, Or.inr ?_⟩
        have h2 := List.dropLast_append_getLast? ch hl
        rw [← h2, heq, hch]
        simp
  · rintro ⟨mid, hall, (heq | heq)⟩
    · exact Or.inl ((markerCore_iff _).mpr ⟨mid, hall, heq⟩)
    · refine Or.inr ?_
      have hsplit : s.toList = ('_' :: (mid ++ ['_'])) ++ ['\n'] := by
        rw [heq]; simp
      have hlast : s.toList.getLast? = some '\n' := by
        rw [hsplit]; exact List.getLast?_concat _
      rw [hlast]
      simp only [Bool.and_eq_true, decide_eq_true_eq]
      refine ⟨by trivial, ?_⟩
      apply (markerCore_iff _).mpr
      refine ⟨mid, hall, ?_⟩
      rw [hsplit]
      exact List.dropLast_concat

/-- C7: on a table none of whose cells is a row-span marker, the pass is a
no-op: the tree comes back exactly as it went in — no colspan, rowspan or
alignment attribute added, no cell removed.  (The raw-text half of the
claim's premise is not even needed: the column-merge phase is unreachable
for every raw text.) -/
theorem c7_no_markers_is_noop (rows : List String) (tIndex : Nat)
    (tbody : List (List Cell))
    (hall : tbody.all (fun row => row.all nonMarkerCell) = true) :
    processTable rows tIndex tbody = .ok tbody := by
  have hall' : ∀ row ∈ tbody, ∀ c ∈ row, nonMarkerCell c = true := by
    intro row hr c hc
    rw [List.all_eq_true] at hall
    have := hall row hr
    rw [List.all_eq_true] at this
    exact this c hc
  rw [processTable, detectRows_noop rows tIndex tbody [] hall' tbody.length 0]
  rfl

/-- Witness for C7 at a concrete marker-free two-cell table. -/
theorem c7_no_markers_is_noop_witness :
    ([[Cell.mk 0 (some "a") [], Cell.mk 1 (some "b") []]] : List (List Cell)).all
        (fun row => row.all nonMarkerCell) = true ∧
    processTable ["| h1 | h2 |", "| - | - |", "| a | b |"] 1
        [[Cell.mk 0 (some "a") [], Cell.mk 1 (some "b") []]] =
      .ok [[Cell.mk 0 (some "a") [], Cell.mk 1 (some "b") []]] :=
  ⟨by decide, c7_no_markers_is_noop _ _ _ (by decide)⟩

/-- C5: the upward scan of `_update_rowspan_attrib` queues the marker cell
at `(trIndex, tdIndex)` itself and exactly the blank cells above it down to
(not including) the first non-blank cell: row `r` is queued iff `r` is at
most the marker row and every row from `r` up to just below the marker row
is blank at that column.  Removals are applied in one pass only after the
table's detection completes: `processTable` is literally detection over all
rows followed by `removePass`, so detection reads an undeleted tree. -/
theorem c5_upward_scan_and_deferred_removal (tbody : List (List Cell))
    (trIndex tdIndex : Nat)
    (hcol : columnHasTexts tbody tdIndex trIndex = true) :
    (∃ a qs, scanUp trIndex tdIndex tbody trIndex = .ok (a, qs) ∧
      ∀ r, ((∃ i, (r, i) ∈ qs) ↔
        (r ≤ trIndex ∧ ∀ j, r ≤ j → j < trIndex → blankAt tbody j tdIndex = true))) ∧
    (∀ (rows2 : List String) (tIndex2 : Nat) (tb2 : List (List Cell)),
      processTable rows2 tIndex2 tb2 =
        match detectRows rows2 tIndex2 tb2.length 0 tb2 [] with
        | .error e => .error e
        | .ok (tb', qd) => removePass qd tb') :=
  ⟨scanUp_top trIndex tdIndex tbody (columnHasTexts_spec tbody tdIndex trIndex hcol),
   fun _ _ _ => rfl⟩

/-- Witness for C5 on the two-row table `c2tbody` with the marker at row 1,
column 0. -/
theorem c5_upward_scan_and_deferred_removal_witness :
    columnHasTexts c2tbody 0 1 = true ∧
    ((∃ a qs, scanUp 1 0 c2tbody 1 = .ok (a, qs) ∧
      ∀ r, ((∃ i, (r, i) ∈ qs) ↔
        (r ≤ 1 ∧ ∀ j, r ≤ j → j < 1 → blankAt c2tbody j 0 = true))) ∧
    (∀ (rows2 : List String) (tIndex2 : Nat) (tb2 : List (List Cell)),
      processTable rows2 tIndex2 tb2 =
        match detectRows rows2 tIndex2 tb2.length 0 tb2 [] with
        | .error e => .error e
        | .ok (tb', qd) => removePass qd tb')) :=
  ⟨by decide, c5_upward_scan_and_deferred_removal c2tbody 1 0 (by decide)⟩

/-- C6: on a row whose raw text carries an empty-cell merge marker with no
preceding non-empty cell at or before its tree index (more separators than
cells), `_update_colspan_attrib` fails with the diagnostic `IndexError`,
carrying the table index, the 1-based row index, and the per-cell dump of
the row's current contents.  (Claim C1 records that `run` never actually
reaches this resolver; the claim is settled against the resolver itself.) -/
theorem c6_structural_mismatch_error (text : String) (tIndex trIndex : Nat)
    (tr : List Cell) (q : List (Nat × Nat))
    (hok : colspanRowOk tr = true)
    (hbad : colspanBadFrom (pySplitChars '|' (removeLeadPipe text).toList) 0 0
      tr.length = true) :
    updateColspanAttrib text tIndex trIndex tr q =
      .error (.mergeIndexError tIndex (trIndex + 1) (cellDump tr)) :=
  colspanLoop_bad tIndex trIndex _ 0 0 tr q hok hbad

/-- Witness for C6: the raw row `a|b|` implies merging past the end of a
one-cell row. -/
theorem c6_structural_mismatch_error_witness :
    colspanRowOk [Cell.mk 0 (some "x") []] = true ∧
    colspanBadFrom (pySplitChars '|' (removeLeadPipe "a|b|").toList) 0 0
      ([Cell.mk 0 (some "x") []] : List Cell).length = true ∧
    updateColspanAttrib "a|b|" 3 0 [Cell.mk 0 (some "x") []] [] =
      .error (.mergeIndexError 3 1 (cellDump [Cell.mk 0 (some "x") []])) :=
  ⟨by decide, by decide,
   c6_structural_mismatch_error "a|b|" 3 0 [Cell.mk 0 (some "x") []] []
     (by decide) (by decide)⟩

/-- C9: on a table containing a cell whose text is absent (`None`), the
pass raises `TypeError` when `re.match` is handed that text during the
row-span marker test: the Span Resolver implicitly requires every cell to
carry string text.  The hypothesis `cellsBeforeNonMarker` pins the cell
down as the first one (in processing order) that deviates from plain
string content, so nothing else can fail first. -/
theorem c9_none_text_raises_type_error (rows : List String) (tIndex : Nat)
    (tbody : List (List Cell)) (r c : Nat) (cell : Cell)
    (hcell : (tbody.getD r []).get? c = some cell)
    (hnone : cell.text = none)
    (hbefore : cellsBeforeNonMarker tbody r c = true)
    (hr : r < tbody.length) :
    processTable rows tIndex tbody =
      .error (.typeError "expected string or bytes-like object") := by
  obtain ⟨row, hrow⟩ : ∃ row, tbody.get? r = some row := by
    rw [List.get?_eq_get hr]
    exact ⟨_, rfl⟩
  rw [getD_of_get?_some _ _ _ _ hrow] at hcell
  rw [cellsBeforeNonMarker, Bool.and_eq_true] at hbefore
  have hrowsbefore : ∀ r', r' < r → ∀ x ∈ tbody.getD r' [], nonMarkerCell x = true := by
    intro r' hr' x hx
    have h1 := hbefore.1
    rw [List.all_eq_true] at h1
    have h2 := h1 r' (List.mem_range.mpr hr')
    rw [List.all_eq_true] at h2
    exact h2 x hx
  have htake : ∀ x ∈ row.take c, nonMarkerCell x = true := by
    intro x hx
    have h1 := hbefore.2
    rw [getD_of_get?_some _ _ _ _ hrow, List.all_eq_true] at h1
    exact h1 x hx
  simp only [processTable,
    detectRows_hits_none rows tIndex tbody [] r c row cell hrow hcell hnone
      hrowsbefore htake tbody.length 0 (by omega) (by omega)]

/-- Witness for C9 at a one-cell table whose only cell has absent text. -/
theorem c9_none_text_raises_type_error_witness :
    (([[Cell.mk 0 none []]] : List (List Cell)).getD 0 []).get? 0 =
        some (Cell.mk 0 none []) ∧
    processTable [] 1 [[Cell.mk 0 none []]] =
      .error (.typeError "expected string or bytes-like object") :=
  ⟨by decide,
   c9_none_text_raises_type_error [] 1 [[Cell.mk 0 none []]] 0 0
     (Cell.mk 0 none []) (by decide) rfl (by decide) (by decide)⟩

/-- C10: the end-of-table removal pass guards each removal with a
membership test, so for every pending-removal list — duplicated `(row,
cell)` pairs included — it never raises, and each queued cell leaves its
row at most once: row `r` of the result is row `r` of the input minus the
queued identities. -/
theorem c10_removal_membership_guard (q : List (Nat × Nat))
    (tbody : List (List Cell))
    (hnd : ∀ row ∈ tbody, (row.map Cell.id).Nodup) :
    ∃ tbody', removePass q tbody = .ok tbody' ∧
      tbody'.length = tbody.length ∧
      ∀ r, tbody'.get? r =
        (tbody.get? r).map
          (fun row => row.filter (fun c => !(decide (c.id ∈ queuedIds q r)))) :=
  removePass_pointwise q tbody hnd

/-- Witness for C10 with the cell of identity 5 queued twice. -/
theorem c10_removal_membership_guard_witness :
    ∃ tbody', removePass [(0, 5), (0, 5)]
        [[Cell.mk 5 (some "x") [], Cell.mk 6 (some "y") []]] = .ok tbody' ∧
      tbody'.length = 1 ∧
      ∀ r, tbody'.get? r =
        (([[Cell.mk 5 (some "x") [], Cell.mk 6 (some "y") []]] :
            List (List Cell)).get? r).map
          (fun row => row.filter
            (fun c => !(decide (c.id ∈ queuedIds [(0, 5), (0, 5)] r)))) :=
  c10_removal_membership_guard [(0, 5), (0, 5)]
    [[Cell.mk 5 (some "x") [], Cell.mk 6 (some "y") []]] (by decide)

/-- C8: the Recorder appends the accepted block's raw text at the end of
its ordered list — leaving all earlier entries unchanged — and returns
`False`, declining to claim the block. -/
theorem c8_recorder_appends_and_declines (table_blocks : List String)
    (b : String) (bs : List String) :
    blockProcessorRun table_blocks (b :: bs) = .ok (table_blocks ++ [b], false) ∧
    (table_blocks ++ [b]).take table_blocks.length = table_blocks ∧
    (table_blocks ++ [b]).getLast? = some b := by
  refine ⟨rfl, ?_, ?_⟩
  · simp
  · simp

end CellRowSpan
